import Mathlib

/-!
Shallow embedding of `scripts/analyze_github.py` (class `GitHubAnalyzer`) in
Lean 4, together with proofs settling the specification claims about it.

Conventions of the embedding:
* Python strings are Lean `String`s; character-level operations work on
  `String.data` (a `List Char`).
* The regular expressions of `parse_url` are embedded by a direct
  left-to-right search procedure mirroring `re.search` semantics for the two
  concrete patterns of the source.
* The working copy produced by `git clone` is modelled as the list of files
  `os.walk` would yield, in traversal order, each file carrying the list of
  directory-name components of its containing directory (relative to the
  working-copy root).  The in-place pruning `dirs[:] = [d for d in dirs ...]`
  of the source then says precisely that a file is visited iff none of its
  ancestor directory components is pruned.
* Fallible reads (`open` + `read`/`json.load` inside `try/except`) are
  modelled by `Option`; a file whose read or parse would raise is given the
  content `FileContent.unreadable`.
-/

deriving instance DecidableEq for Except

namespace AnalyzeGithub

/-! ### Python string primitives -/

/-- The characters of the literal `github.com` that both URL patterns of
`parse_url` start with. -/
def githubHost : List Char := ['g', 'i', 't', 'h', 'u', 'b', '.', 'c', 'o', 'm']

/-- Model of the Python substring test `pat in s`, on character lists:
true iff `pat` occurs contiguously somewhere in the list. -/
def containsSeq (pat : List Char) : List Char → Bool
  | [] => pat.isEmpty
  | c :: cs => pat.isPrefixOf (c :: cs) || containsSeq pat cs

/-- Python `pat in s` for strings (`str.__contains__`). -/
def pyContains (s pat : String) : Bool := containsSeq pat.data s.data

/-- Python `s.lower()` (ASCII case folding suffices for the analyzer's
keyword tables). -/
def pyToLower (s : String) : String := String.mk (s.data.map Char.toLower)

/-- Python `s.startswith(pre)`. -/
def pyStartsWith (s pre : String) : Bool := pre.data.isPrefixOf s.data

/-- Python `s.endswith(suf)`. -/
def pyEndsWith (s suf : String) : Bool := suf.data.isSuffixOf s.data

/-- The whitespace characters of Python `str.strip()` (ASCII range). -/
def isPySpace (c : Char) : Bool :=
  c = ' ' || c = '\t' || c = '\n' || c = '\r' || c = '\x0c' || c = '\x0b'

/-- Python `s.strip()`. -/
def pyStrip (s : String) : String :=
  String.mk (((s.data.dropWhile isPySpace).reverse.dropWhile isPySpace).reverse)

/-- Split a character list at every occurrence of `c` (Python
`s.split(c)` for a one-character separator). -/
def splitOnChar (c : Char) : List Char → List (List Char)
  | [] => [[]]
  | x :: xs =>
    if x = c then [] :: splitOnChar c xs
    else
      match splitOnChar c xs with
      | y :: ys => (x :: y) :: ys
      | [] => [[x]]

/-- The lines of a text file as the `for line in f` loops see them, after
the `strip()` the source always applies (iteration keeps the trailing
newline, `strip` removes it again). -/
def pyLines (s : String) : List String := (splitOnChar '\n' s.data).map String.mk

/-- The text before the first occurrence of `pat` (the whole list when
`pat` does not occur): Python `s.split(pat)[0]` for a nonempty `pat`. -/
def beforeSeq (pat : List Char) : List Char → List Char
  | [] => []
  | c :: cs => if pat.isPrefixOf (c :: cs) then [] else c :: beforeSeq pat cs

/-- Model of Python `s.replace(".git", "")`: scan left to right, removing
non-overlapping occurrences of `.git`; the scan continues after each removed
occurrence and never rescans produced text. -/
def replGit : List Char → List Char
  | '.' :: 'g' :: 'i' :: 't' :: rest => replGit rest
  | c :: cs => c :: replGit cs
  | [] => []

/-- Python `s[:n]` for strings (character count, as in Python). -/
def pyTruncate (s : String) (n : Nat) : String := String.mk (s.data.take n)

/-- First component of Python `s.split(sep)` for a nonempty separator:
the text before the first occurrence of `sep` (the whole of `s` when `sep`
does not occur). -/
def headSplit (sep s : String) : String := String.mk (beforeSeq sep.data s.data)

/-! ### The `parse_url` regular expressions

The source applies, in order, the patterns
`github\.com[:/]([^/]+)/([^/]+?)(?:\.git)?$` and
`github\.com/([^/]+)/([^/]+?)(?:\.git)?$` with `re.search`, then runs
`repo.replace('.git', '')` on the second group.  Since `[^/]` never matches
`/` and the pattern is anchored by `$`, a match at a given occurrence of
`github.com` requires a separator character, then a nonempty slash-free
owner segment, one `/`, and a nonempty slash-free tail; the non-greedy
second group absorbs the tail minus an optional final `.git`, and Python's
`$` (without `re.MULTILINE`) also matches just before one final newline. -/

/-- Python `$` may match just before a single trailing newline, so the
matched tail loses one final `'\n'` when anything precedes it. -/
def dropFinalNewline (u : List Char) : List Char :=
  match u.reverse with
  | '\n' :: c :: cs => (c :: cs).reverse
  | _ => u

/-- Effect of the optional `(?:\.git)?` after the non-greedy group: the
shortest admissible group drops one final `.git` provided the group stays
nonempty. -/
def stripDotGit (u : List Char) : List Char :=
  if ['.', 'g', 'i', 't'].isSuffixOf u ∧ 4 < u.length then u.take (u.length - 4) else u

/-- Group 2 of the patterns, `([^/]+?)(?:\.git)?$`, evaluated on the full
slash-free tail. -/
def group2 (t : List Char) : List Char := stripDotGit (dropFinalNewline t)

/-- Matching of `([^/]+)/([^/]+?)(?:\.git)?$` against the text following the
separator: the greedy first group runs to the first `/`, and the rest must be
a nonempty slash-free tail. -/
def splitAfterHost (rest : List Char) : Option (List Char × List Char) :=
  let owner := rest.takeWhile (· != '/')
  match rest.dropWhile (· != '/') with
  | '/' :: tail =>
    if owner.isEmpty || tail.isEmpty || tail.contains '/' then none
    else some (owner, group2 tail)
  | _ => none

/-- Attempt to match one pattern at the current position: the literal host,
one separator from `seps`, then owner and repo groups. -/
def matchAt (seps : List Char) (cs : List Char) : Option (List Char × List Char) :=
  if githubHost.isPrefixOf cs then
    match cs.drop githubHost.length with
    | c :: rest => if seps.contains c then splitAfterHost rest else none
    | [] => none
  else none

/-- `re.search`: try the pattern at each start position, left to right. -/
def reSearch (seps : List Char) : List Char → Option (List Char × List Char)
  | [] => none
  | c :: cs =>
    match matchAt seps (c :: cs) with
    | some r => some r
    | none => reSearch seps cs

/-- `GitHubAnalyzer.parse_url`: try the two patterns in order (they differ
only in the allowed separator set), and post-process the matched repo name
with `repo.replace('.git', '')`.  `none` models the raised
`ValueError` (the spec's `InvalidReferenceError`). -/
def parse_url (s : String) : Option (String × String) :=
  match reSearch [':', '/'] s.data with
  | some (o, n) => some (String.mk o, String.mk (replGit n))
  | none =>
    match reSearch ['/'] s.data with
    | some (o, n) => some (String.mk o, String.mk (replGit n))
    | none => none

/-! ### The working copy

A cloned repository is modelled as the list of regular files `os.walk` would
reach, in traversal order.  `dirs` is the list of directory-name components
between the working-copy root and the file; the source's in-place filtering
of `dirs[:]` prunes a whole subtree as soon as one component is rejected, so
a file is visited by a scan exactly when no component of its `dirs` is
rejected by that scan's filter. -/

/-- Content of a file as the analyzer consumes it.  `text` is an ordinary
text file.  `jsonManifest` models a JSON file as `json.load` would decode it,
keeping the document order of the `dependencies` / `devDependencies` keys
(absent fields are `[]`).  `unreadable` models a file whose `open`, `read`
or `json.load` raises (all such reads in the source sit in `try/except`). -/
inductive FileContent where
  | text (s : String)
  | jsonManifest (dependencies : List String) (devDependencies : List String)
  | unreadable
deriving DecidableEq

/-- One regular file of the working copy. -/
structure FileEntry where
  dirs : List String
  name : String
  content : FileContent
deriving DecidableEq

/-- The working copy: its files in `os.walk` traversal order (files of a
directory before the files of its subdirectories). -/
abbrev Repo := List FileEntry

/-- `os.path.relpath(os.path.join(root, f), self.repo_path)`. -/
def relPath (e : FileEntry) : String :=
  e.dirs.foldr (fun d acc => d ++ "/" ++ acc) e.name

/-- Directory filter of `detect_language` (and its walk): hidden directories
and the fixed exclusion list are pruned. -/
def pruneLang (d : String) : Bool :=
  pyStartsWith d "." || ["node_modules", "__pycache__", "venv", "dist", "build"].contains d

/-- Directory filter of `find_entry_points`: the same list plus `.git`
(redundantly, `.git` already being hidden). -/
def pruneEntry (d : String) : Bool :=
  pyStartsWith d "." || ["node_modules", "__pycache__", "venv", "dist", "build", ".git"].contains d

/-- Directory filter of `analyze_apis`: only hidden directories are pruned. -/
def pruneApi (d : String) : Bool := pyStartsWith d "."

/-- The files a walk with directory filter `prune` visits. -/
def walkFiles (prune : String → Bool) (repo : Repo) : List FileEntry :=
  repo.filter (fun e => !(e.dirs.any prune))

/-- Content of the root-level file named `nm`, when it exists
(`(self.repo_path / nm).exists()` followed by a read). -/
def rootContent (repo : Repo) (nm : String) : Option FileContent :=
  (repo.find? (fun e => e.dirs.isEmpty && e.name == nm)).map (·.content)

/-- Successful text read of a root-level file: `none` when the file is
absent or its read raises. -/
def rootText (repo : Repo) (nm : String) : Option String :=
  match rootContent repo nm with
  | some (.text s) => some s
  | _ => none

/-! ### `detect_language` -/

/-- `pathlib.Path(name).suffix`: the part of the final component from its
last dot, provided that dot is neither the first nor the last character;
otherwise the empty string. -/
def pathSuffix (name : String) : String :=
  let cs := name.data
  let afterRev := cs.reverse.takeWhile (· != '.')
  if afterRev.length = cs.length then ""
  else if afterRev.length = 0 then ""
  else if afterRev.length + 1 = cs.length then ""
  else String.mk ('.' :: afterRev.reverse)

/-- The `language_patterns` table, in source declaration order (Python dicts
iterate in insertion order). -/
def language_patterns : List (String × List String) :=
  [("Python", [".py"]),
   ("JavaScript", [".js", ".jsx", ".mjs"]),
   ("TypeScript", [".ts", ".tsx"]),
   ("Java", [".java"]),
   ("Go", [".go"]),
   ("Rust", [".rs"]),
   ("C++", [".cpp", ".cc", ".cxx", ".hpp", ".h"]),
   ("C", [".c", ".h"]),
   ("Ruby", [".rb"]),
   ("Swift", [".swift"]),
   ("Kotlin", [".kt", ".kts"]),
   ("PHP", [".php"]),
   ("C#", [".cs"]),
   ("Scala", [".scala"])]

/-- The language a file is counted for: the inner
`for lang, exts / if ext in exts / break` loop takes the first table entry
whose extension set contains `Path(file).suffix.lower()`. -/
def classifyFile (name : String) : Option String :=
  let ext := pyToLower (pathSuffix name)
  (language_patterns.find? (fun p => p.2.contains ext)).map (·.1)

/-- `lang_counts[lang] = lang_counts.get(lang, 0) + 1` on an insertion-order
association list (the model of the Python dict). -/
def bump : List (String × Nat) → String → List (String × Nat)
  | [], l => [(l, 1)]
  | (k, n) :: rest, l =>
    if k = l then (k, n + 1) :: rest else (k, n) :: bump rest l

/-- One iteration of the `for file in files` loop: a file bumps the count of
its classified language, or counts for no language at all. -/
def countStep (cnts : List (String × Nat)) (nm : String) : List (String × Nat) :=
  match classifyFile nm with
  | some l => bump cnts l
  | none => cnts

/-- The language histogram over a list of file names. -/
def langCounts (names : List String) : List (String × Nat) :=
  names.foldl countStep []

/-- Total number of counted files in a histogram. -/
def countTotal (counts : List (String × Nat)) : Nat := (counts.map (·.2)).sum

/-- `max(iterable, key=f)` keeps the first element and replaces it only on a
strictly larger key, so ties go to the earlier (first-encountered) key. -/
def maxKeyGo (k : String) (n : Nat) : List (String × Nat) → String
  | [] => k
  | (k2, n2) :: rest => if n2 > n then maxKeyGo k2 n2 rest else maxKeyGo k n rest

/-- `max(lang_counts, key=lang_counts.get)`, `none` on an empty dict. -/
def maxKey : List (String × Nat) → Option String
  | [] => none
  | (k, n) :: rest => some (maxKeyGo k n rest)

/-- The two fields `detect_language` stores into `repo_info`. -/
structure LangInfo where
  languages : List (String × Nat)
  main_language : String
deriving DecidableEq

/-- `GitHubAnalyzer.detect_language`. -/
def detect_language (repo : Repo) : LangInfo :=
  let counts := langCounts ((walkFiles pruneLang repo).map (·.name))
  match maxKey counts with
  | some m => { languages := counts, main_language := m }
  | none => { languages := [], main_language := "Unknown" }

/-! ### `detect_tech_stack` -/

/-- The `tech_stack` dictionary. -/
structure TechStack where
  frameworks : List String
  dependencies : List String
  build_tools : List String
deriving DecidableEq

/-- The `framework_keywords` table, in source declaration order. -/
def framework_keywords : List (String × String) :=
  [("react", "React"), ("vue", "Vue"), ("angular", "Angular"),
   ("next", "Next.js"), ("nuxt", "Nuxt.js"), ("express", "Express"),
   ("fastify", "Fastify"), ("koa", "Koa"), ("django", "Django"),
   ("flask", "Flask"), ("spring", "Spring"), ("laravel", "Laravel")]

/-- The nested `for dep in deps / for kw, name in framework_keywords` loop
of the `package.json` branch: append each matched framework name unless it is
already present.  Only the runtime `dependencies` are scanned (`dev_deps` is
read but never used by this loop). -/
def frameworksOf (deps : List String) : List String :=
  deps.foldl
    (fun fw dep =>
      framework_keywords.foldl
        (fun fw kwn =>
          if pyContains (pyToLower dep) kwn.1 && !(fw.contains kwn.2) then fw ++ [kwn.2]
          else fw)
        fw)
    []

/-- One `requirements.txt` line: `line.split('==')[0].split('>=')[0].strip()`
(Python `strip` of surrounding whitespace is `String.trim`). -/
def reqName (line : String) : String :=
  pyStrip (headSplit ">=" (headSplit "==" line))

/-- The `requirements.txt` loop: keep each stripped, nonempty, non-comment
line's bare package name, in file order. -/
def reqDeps (s : String) : List String :=
  (pyLines s).foldl
    (fun acc line =>
      let l := pyStrip line
      if l ≠ "" ∧ ¬ pyStartsWith l "#" then acc ++ [reqName l] else acc)
    []

/-- Framework names contributed by the `package.json` branch (nothing when
the file is absent or `open`/`json.load` raises — `try/except: pass`). -/
def pkgFrameworks (repo : Repo) : List String :=
  match rootContent repo "package.json" with
  | some (.jsonManifest deps _devDeps) => frameworksOf deps
  | _ => []

/-- Dependency names contributed by the `package.json` branch:
`list(deps.keys())[:20]`. -/
def pkgDependencies (repo : Repo) : List String :=
  match rootContent repo "package.json" with
  | some (.jsonManifest deps _devDeps) => deps.take 20
  | _ => []

/-- Dependency names contributed by the `requirements.txt` branch:
`tech_stack['dependencies'].extend(deps[:20])`. -/
def reqDependencies (repo : Repo) : List String :=
  match rootContent repo "requirements.txt" with
  | some (.text s) => (reqDeps s).take 20
  | _ => []

/-- The `go.mod` branch: a `Go Modules` tag when some line starts with
`require (`. -/
def goFrameworks (repo : Repo) : List String :=
  match rootContent repo "go.mod" with
  | some (.text s) =>
    if (pyLines s).any (fun l => pyStartsWith l "require (") then ["Go Modules"] else []
  | _ => []

/-- `GitHubAnalyzer.detect_tech_stack`: the manifest branches in source
order; presence checks (`Cargo.toml`, `pom.xml`, `build.gradle`) need only
`exists()`. -/
def detect_tech_stack (repo : Repo) : TechStack :=
  { frameworks :=
      pkgFrameworks repo ++ goFrameworks repo ++
      (if (rootContent repo "Cargo.toml").isSome then ["Cargo/Rust"] else []) ++
      (if (rootContent repo "pom.xml").isSome then ["Maven/Java"] else []),
    dependencies := pkgDependencies repo ++ reqDependencies repo,
    build_tools :=
      (if (rootContent repo "pom.xml").isSome then ["Maven"] else []) ++
      (if (rootContent repo "build.gradle").isSome then ["Gradle"] else []) }

/-! ### `find_entry_points` -/

/-- The three buckets stored under `entry_points`. -/
structure EntryPoints where
  main_files : List String
  config_files : List String
  test_files : List String
deriving DecidableEq

def main_patterns : List String := ["main", "app", "index", "server", "cli", "run"]

def config_patterns : List String := ["config", "settings", ".env", "setup"]

def test_patterns : List String := ["test", "spec", "__tests__"]

/-- The extension tuple of the main-file check. -/
def mainExts : List String := [".py", ".js", ".ts", ".go", ".rs", ".java", ".rb", ".sh"]

/-- The exact-name list of the config-file check. -/
def configExact : List String :=
  ["package.json", "requirements.txt", "Cargo.toml", "go.mod", "pom.xml",
   "build.gradle", "Makefile", "Dockerfile"]

/-- The suffix tuple of the test-file check. -/
def testSuffixes : List String :=
  [".test.js", ".test.ts", ".spec.js", ".spec.ts", "_test.py", "_test.go"]

/-- Main-bucket test: some entry-point keyword occurs in the lower-cased
name and the (original) name carries a recognized extension. -/
def isMainFile (f : String) : Bool :=
  main_patterns.any (fun p => pyContains (pyToLower f) p && mainExts.any (fun e => pyEndsWith f e))

/-- Config-bucket test: some config keyword occurs in the lower-cased name,
or the name is one of the canonical project files. -/
def isConfigFile (f : String) : Bool :=
  config_patterns.any (fun p => pyContains (pyToLower f) p || configExact.contains f)

/-- Test-bucket test: some test keyword occurs in the lower-cased name, or
the name ends in a recognized test suffix. -/
def isTestFile (f : String) : Bool :=
  test_patterns.any
    (fun p => pyContains (pyToLower f) p || testSuffixes.any (fun e => pyEndsWith f e))

/-- `list(set(xs))`: Python's set iteration order is unspecified, so the
model fixes the canonical order `List.dedup`; no proved property depends on
the order, only on uniqueness and membership. -/
def pySetList (xs : List String) : List String := xs.dedup

/-- `GitHubAnalyzer.find_entry_points`: classify every visited non-hidden
file, then deduplicate and truncate each bucket. -/
def find_entry_points (repo : Repo) : EntryPoints :=
  let vis := (walkFiles pruneEntry repo).filter (fun e => !(pyStartsWith e.name "."))
  { main_files := (pySetList ((vis.filter (fun e => isMainFile e.name)).map relPath)).take 10,
    config_files := (pySetList ((vis.filter (fun e => isConfigFile e.name)).map relPath)).take 15,
    test_files := (pySetList ((vis.filter (fun e => isTestFile e.name)).map relPath)).take 10 }

/-! ### `analyze_apis` -/

def api_patterns : List String := ["api", "route", "endpoint", "controller"]

/-- `GitHubAnalyzer.analyze_apis`: its walk prunes only hidden directories,
hidden files are skipped, and matches are capped at 15 in traversal order. -/
def analyze_apis (repo : Repo) : List String :=
  let vis := (walkFiles pruneApi repo).filter (fun e => !(pyStartsWith e.name "."))
  ((vis.filter (fun e => api_patterns.any (fun p => pyContains (pyToLower e.name) p))).map relPath).take 15

/-! ### `read_readme` -/

/-- The candidate description files, in priority order. -/
def readme_files : List String := ["README.md", "README.txt", "README", "readme.md"]

/-- `GitHubAnalyzer.read_readme`: the first candidate that exists and reads
successfully contributes its first 2000 characters; a candidate whose read
raises is skipped silently (`except: pass` falls through to the next name);
otherwise the description is empty. -/
def read_readme (repo : Repo) : String :=
  match readme_files.findSome? (rootText repo) with
  | some c => pyTruncate c 2000
  | none => ""

/-! ### The orchestrator `analyze`

`analyze` runs `clone_repo` and then the six scanner stages inside a
`try/finally`; the `finally` block removes the temporary directory whenever
it was created.  `parse_url` is never invoked by `analyze` (nor by any other
method).  The model tracks the only filesystem state the claims are about —
whether the `mkdtemp` directory still exists — and takes the outcomes of the
external world from an environment: whether `git clone` exits zero, the
working copy it materializes, and, for each scanner stage, whether that stage
raises an (unhandled, non-analyzer) exception such as an `OSError` of the
traversal. -/

/-- The exceptions that can escape an analysis run.  `invalidReference` is
the `ValueError` of `parse_url` (the spec's `InvalidReferenceError`),
`fetchError` the `RuntimeError` of `clone_repo` (the spec's `FetchError`),
`stageError i` any other exception raised inside pipeline stage `i`. -/
inductive AnalyzerError where
  | invalidReference
  | fetchError
  | stageError (stage : Nat)
deriving DecidableEq

/-- The report `analyze` returns (`self.repo_info`).  The `structure` digest
of `analyze_structure` is not modelled: no verified claim mentions it (the
stage still participates in the control flow below). -/
structure Report where
  readme : String
  languages : List (String × Nat)
  main_language : String
  tech_stack : TechStack
  entry_points : EntryPoints
  api_files : List String
deriving DecidableEq

/-- Outcomes of the external world for one run: the exit status of
`git clone`, the working copy it produces, and a flag per scanner stage
saying whether that stage raises. -/
structure RunEnv where
  cloneOk : Bool
  repo : Repo
  failReadme : Bool
  failLanguage : Bool
  failTech : Bool
  failStructure : Bool
  failEntry : Bool
  failApis : Bool
deriving DecidableEq

/-- The `finally` block: `shutil.rmtree` removes the temporary directory
when it was created (its own `except: pass` only guards OS-level removal
failures, which are outside this filesystem model). -/
def cleanupTemp (tempExists : Bool) : Bool := if tempExists then false else tempExists

/-- The `try` body of `analyze`: `clone_repo` first creates the temporary
directory with `mkdtemp` (so it exists on every later path, including a
failing clone), then the stages run in source order, each either raising or
contributing its fields.  Returns the temp-directory state at the moment
the body finishes or raises, and the body's outcome. -/
def analyzeBody (env : RunEnv) : Bool × Except AnalyzerError Report :=
  (true,
    if !env.cloneOk then .error .fetchError
    else if env.failReadme then .error (.stageError 2)
    else if env.failLanguage then .error (.stageError 3)
    else if env.failTech then .error (.stageError 4)
    else if env.failStructure then .error (.stageError 5)
    else if env.failEntry then .error (.stageError 6)
    else if env.failApis then .error (.stageError 7)
    else .ok
      { readme := read_readme env.repo,
        languages := (detect_language env.repo).languages,
        main_language := (detect_language env.repo).main_language,
        tech_stack := detect_tech_stack env.repo,
        entry_points := find_entry_points env.repo,
        api_files := analyze_apis env.repo })

/-- `GitHubAnalyzer.analyze(url)`: the `try` body followed by the `finally`
cleanup.  The url is handed to `git clone` only; `env.cloneOk` is that
process's outcome on it.  Result: the value returned or exception re-raised,
and whether the temporary directory still exists afterwards. -/
def analyze (url : String) (env : RunEnv) : Except AnalyzerError Report × Bool :=
  let body := analyzeBody env
  (body.2, cleanupTemp body.1)

/-! ### Concrete working copies used by the claims -/

/-- The synthetic repository of the end-to-end scenario. -/
def e2eRepo : Repo :=
  [⟨[], "main.py", .text "x = 1"⟩,
   ⟨[], "config.json", .text "x"⟩,
   ⟨[], "requirements.txt", .text "flask==2.0\n# comment\nrequests>=2"⟩,
   ⟨[], "README.md", .text "Hello"⟩]

/-- A working copy declaring `flask` both in `package.json` and in
`requirements.txt`. -/
def dupDepsRepo : Repo :=
  [⟨[], "package.json", .jsonManifest ["flask"] []⟩,
   ⟨[], "requirements.txt", .text "flask==1.0"⟩]

/-- A working copy whose highest-priority readme exists but cannot be read,
while the next candidate reads fine. -/
def unreadableReadmeRepo : Repo :=
  [⟨[], "README.md", .unreadable⟩,
   ⟨[], "README.txt", .text "Fallback description"⟩]

/-- A working copy whose only files live under the dependency-cache and
build-output directories every other scanner prunes. -/
def cacheDirsRepo : Repo :=
  [⟨["node_modules"], "api.js", .text ""⟩,
   ⟨["__pycache__"], "routes.py", .text ""⟩,
   ⟨["venv"], "endpoints.py", .text ""⟩,
   ⟨["dist"], "controller.js", .text ""⟩,
   ⟨["build"], "api_client.py", .text ""⟩]

/-- Environment of a run whose `git clone` fails (exit status nonzero) —
for instance because the url references no repository at all. -/
def cloneFailEnv : RunEnv :=
  { cloneOk := false, repo := [], failReadme := false, failLanguage := false,
    failTech := false, failStructure := false, failEntry := false, failApis := false }

/-! ### Helper lemmas -/

theorem replGit_dotgit (rest : List Char) :
    replGit ('.' :: 'g' :: 'i' :: 't' :: rest) = replGit rest := rfl

theorem replGit_cons (c : Char) (cs : List Char)
    (h : ¬ (c = '.' ∧ cs.take 3 = ['g', 'i', 't'])) :
    replGit (c :: cs) = c :: replGit cs := by
  rw [replGit.eq_def]
  split
  · rename_i heq
    injection heq with h1 h2
    subst h1
    exact absurd ⟨rfl, by rw [h2]; rfl⟩ h
  · rename_i heq
    injection heq with h1 h2
    subst h1; subst h2
    rfl
  · rename_i heq
    exact absurd heq (by simp)

theorem replGit_append_git_aux :
    ∀ (n : Nat) (t : List Char), t.length ≤ n →
      replGit (t ++ ['.', 'g', 'i', 't']) = replGit t := by
  intro n
  induction n with
  | zero =>
    intro t ht
    have h0 : t = [] := List.length_eq_zero.mp (Nat.le_zero.mp ht)
    subst h0
    rfl
  | succ n ih =>
    intro t ht
    match t with
    | [] => rfl
    | '.' :: 'g' :: 'i' :: 't' :: rest =>
      show replGit ('.' :: 'g' :: 'i' :: 't' :: (rest ++ ['.', 'g', 'i', 't'])) = _
      rw [replGit_dotgit, replGit_dotgit]
      exact ih rest (by simp at ht ⊢; omega)
    | c :: cs =>
      by_cases hgit : c = '.' ∧ cs.take 3 = ['g', 'i', 't']
      · obtain ⟨hc, hcs⟩ := hgit
        subst hc
        have hlen : 3 ≤ cs.length := by
          by_contra hlt
          push_neg at hlt
          have := congrArg List.length hcs
          simp [Nat.min_def] at this
          omega
        obtain ⟨rest, hrest⟩ : ∃ rest, cs = 'g' :: 'i' :: 't' :: rest := by
          match cs, hlen with
          | a :: b :: d :: rest, _ =>
            have : List.take 3 (a :: b :: d :: rest) = [a, b, d] := rfl
            rw [this] at hcs
            injection hcs with e1 hcs
            injection hcs with e2 hcs
            injection hcs with e3 _
            subst e1; subst e2; subst e3
            exact ⟨rest, rfl⟩
        subst hrest
        show replGit ('.' :: 'g' :: 'i' :: 't' :: (rest ++ ['.', 'g', 'i', 't'])) = _
        rw [replGit_dotgit, replGit_dotgit]
        exact ih rest (by simp at ht ⊢; omega)
      · have hgit2 : ¬ (c = '.' ∧ (cs ++ ['.', 'g', 'i', 't']).take 3 = ['g', 'i', 't']) := by
          rintro ⟨hc, htake⟩
          subst hc
          apply hgit
          refine ⟨rfl, ?_⟩
          match cs with
          | [] => simp at htake
          | [a] =>
            have : List.take 3 ([a] ++ ['.', 'g', 'i', 't']) = [a, '.', 'g'] := rfl
            rw [this] at htake
            injection htake with e1 htake
            injection htake with e2 _
            exact absurd e2 (by decide)
          | [a, b] =>
            have : List.take 3 ([a, b] ++ ['.', 'g', 'i', 't']) = [a, b, '.'] := rfl
            rw [this] at htake
            injection htake with e1 htake
            injection htake with e2 htake
            injection htake with e3 _
            exact absurd e3 (by decide)
          | a :: b :: d :: rest =>
            have : List.take 3 ((a :: b :: d :: rest) ++ ['.', 'g', 'i', 't']) =
                [a, b, d] := rfl
            rw [this] at htake
            exact (show List.take 3 (a :: b :: d :: rest) = [a, b, d] from rfl).trans htake
        show replGit (c :: (cs ++ ['.', 'g', 'i', 't'])) = _
        rw [replGit_cons c _ hgit2, replGit_cons c cs hgit]
        have := ih cs (by simp at ht ⊢; omega)
        rw [this]

/-- Removing a trailing `.git` before running `replace('.git', '')` changes
nothing: the replacement would remove that occurrence anyway (no occurrence
of `.git` can straddle the boundary, since no proper suffix of `.git` is one
of its prefixes). -/
theorem replGit_append_git (t : List Char) :
    replGit (t ++ ['.', 'g', 'i', 't']) = replGit t :=
  replGit_append_git_aux t.length t (Nat.le_refl _)

theorem replGit_stripDotGit (u : List Char) :
    replGit (stripDotGit u) = replGit u := by
  unfold stripDotGit
  split
  · rename_i hcond
    obtain ⟨p, hp⟩ := List.isSuffixOf_iff_suffix.mp hcond.1
    rw [← hp]
    have hlen : (p ++ ['.', 'g', 'i', 't']).length - 4 = p.length := by simp
    rw [hlen, List.take_left]
    exact (replGit_append_git p).symm
  · rfl

theorem pySetList_nodup (xs : List String) : (pySetList xs).Nodup := List.nodup_dedup xs

theorem takeWhile_no_slash (xs ys : List Char) (h : '/' ∉ xs) :
    (xs ++ '/' :: ys).takeWhile (· != '/') = xs := by
  induction xs with
  | nil => simp
  | cons x xs ih =>
    simp only [List.mem_cons, not_or] at h
    have hx : x ≠ '/' := fun hh => h.1 hh.symm
    simp [List.takeWhile_cons, hx, ih h.2]

theorem dropWhile_no_slash (xs ys : List Char) (h : '/' ∉ xs) :
    (xs ++ '/' :: ys).dropWhile (· != '/') = '/' :: ys := by
  induction xs with
  | nil => simp
  | cons x xs ih =>
    simp only [List.mem_cons, not_or] at h
    have hx : x ≠ '/' := fun hh => h.1 hh.symm
    simp [List.dropWhile_cons, hx, ih h.2]

theorem matchAt_host (seps : List Char) (x : List Char) :
    matchAt seps (githubHost ++ x) =
      (match x with
       | c :: rest => if seps.contains c then splitAfterHost rest else none
       | [] => none) := by
  have hpre : githubHost.isPrefixOf (githubHost ++ x) = true :=
    List.isPrefixOf_iff_prefix.mpr ⟨x, rfl⟩
  unfold matchAt
  rw [hpre, if_pos rfl, List.drop_left]

theorem reSearch_cons_none (seps : List Char) (c : Char) (cs : List Char)
    (h : matchAt seps (c :: cs) = none) :
    reSearch seps (c :: cs) = reSearch seps cs := by
  rw [reSearch, h]

theorem reSearch_some (seps : List Char) (c : Char) (cs : List Char)
    (r : List Char × List Char) (h : matchAt seps (c :: cs) = some r) :
    reSearch seps (c :: cs) = some r := by
  rw [reSearch, h]

theorem splitAfterHost_split (owner tail : List Char)
    (ho : owner ≠ []) (hos : '/' ∉ owner) (ht : tail ≠ []) (hts : '/' ∉ tail) :
    splitAfterHost (owner ++ '/' :: tail) = some (owner, group2 tail) := by
  unfold splitAfterHost
  rw [takeWhile_no_slash _ _ hos, dropWhile_no_slash _ _ hos]
  have h1 : owner.isEmpty = false := by
    cases owner
    · exact absurd rfl ho
    · rfl
  have h2 : tail.isEmpty = false := by
    cases tail
    · exact absurd rfl ht
    · rfl
  have h3 : tail.contains '/' = false := by
    simpa using hts
  simp [h1, h2, h3, hts]

theorem reSearch_host_valid (c : Char) (hc : c = ':' ∨ c = '/')
    (owner name : List Char) (ho : owner ≠ []) (hos : '/' ∉ owner)
    (hn : name ≠ []) (hns : '/' ∉ name) :
    reSearch [':', '/'] (githubHost ++ (c :: (owner ++ '/' :: name))) =
      some (owner, group2 name) := by
  have hcc : [':', '/'].contains c = true := by
    rcases hc with h | h <;> subst h <;> rfl
  have hm : matchAt [':', '/'] (githubHost ++ (c :: (owner ++ '/' :: name))) =
      some (owner, group2 name) := by
    rw [matchAt_host]
    dsimp only
    rw [hcc, if_pos rfl]
    exact splitAfterHost_split owner name ho hos hn hns
  exact reSearch_some [':', '/'] 'g' _ _ hm

theorem reSearch_skip_gitat (seps M : List Char) :
    reSearch seps ('g' :: 'i' :: 't' :: '@' :: M) = reSearch seps M := rfl

theorem reSearch_skip_https (seps M : List Char) :
    reSearch seps
        ('h' :: 't' :: 't' :: 'p' :: 's' :: ':' :: '/' :: '/' :: M) =
      reSearch seps M := rfl

theorem dropFinalNewline_no_newline (u : List Char) (h : '\n' ∉ u) :
    dropFinalNewline u = u := by
  unfold dropFinalNewline
  split
  · rename_i c cs heq
    exfalso
    apply h
    have hm : '\n' ∈ u.reverse := by
      rw [heq]
      exact List.mem_cons_self _ _
    simpa using hm
  · rfl

theorem group2_no_newline (name : List Char) (h : '\n' ∉ name) :
    group2 name = stripDotGit name := by
  unfold group2
  rw [dropFinalNewline_no_newline _ h]

theorem string_ne_empty_data (s : String) (h : s ≠ "") : s.data ≠ [] := by
  intro hd
  apply h
  cases s with
  | mk d => exact congrArg String.mk hd

theorem reSearch_some_decomp (seps : List Char) :
    ∀ (l : List Char) (r : List Char × List Char), reSearch seps l = some r →
      ∃ a b, l = a ++ b ∧ matchAt seps b = some r := by
  intro l
  induction l with
  | nil =>
    intro r h
    exact absurd h (by rw [reSearch]; exact Option.noConfusion)
  | cons c cs ih =>
    intro r h
    rw [reSearch] at h
    cases hm : matchAt seps (c :: cs) with
    | some r2 =>
      rw [hm] at h
      exact ⟨[], c :: cs, rfl, hm.trans h⟩
    | none =>
      rw [hm] at h
      obtain ⟨a, b, hab, hb⟩ := ih r h
      exact ⟨c :: a, b, by rw [hab]; rfl, hb⟩

theorem matchAt_some_host (seps : List Char) (l : List Char)
    (r : List Char × List Char) (h : matchAt seps l = some r) :
    ∃ t, l = githubHost ++ t := by
  by_cases hp : githubHost.isPrefixOf l
  · obtain ⟨t, ht⟩ := List.isPrefixOf_iff_prefix.mp hp
    exact ⟨t, ht.symm⟩
  · rw [matchAt, if_neg hp] at h
    exact absurd h Option.noConfusion

theorem countTotal_bump (cnts : List (String × Nat)) (l : String) :
    countTotal (bump cnts l) = countTotal cnts + 1 := by
  induction cnts with
  | nil => simp [bump, countTotal]
  | cons hd tl ih =>
    obtain ⟨k, n⟩ := hd
    by_cases hk : k = l <;> simp [bump, hk, countTotal] <;>
      simp [countTotal] at ih <;> omega

theorem countTotal_countStep (cnts : List (String × Nat)) (nm : String) :
    countTotal (countStep cnts nm) =
      countTotal cnts + (if (classifyFile nm).isSome then 1 else 0) := by
  cases h : classifyFile nm <;> simp [countStep, h, countTotal_bump]

theorem langCounts_foldl_total (names : List String) :
    ∀ acc : List (String × Nat),
      countTotal (names.foldl countStep acc) =
        countTotal acc + names.countP (fun f => (classifyFile f).isSome) := by
  induction names with
  | nil => intro acc; simp
  | cons hd tl ih =>
    intro acc
    rw [List.foldl_cons, ih (countStep acc hd), countTotal_countStep,
      List.countP_cons]
    by_cases h : (classifyFile hd).isSome <;> simp [h] <;> omega

/-! ### The claims -/

/-- Claim C1 (corrected at `frameworks`): on the synthetic end-to-end
repository, `tech_stack.frameworks` does not contain `"Flask"` — framework
keywords are only matched in the `package.json` branch, and the repository
has no `package.json`. -/
theorem C1_counterexample :
    "Flask" ∉ (detect_tech_stack e2eRepo).frameworks := by decide

/-- Claim C1 (amended): on the synthetic end-to-end repository the report
has `main_language = "Python"`, `entry_points.main = ["main.py"]`,
dependencies containing `flask` and `requests`, `description = "Hello"` —
but `tech_stack.frameworks` is empty (no `"Flask"` entry), since framework
detection only inspects `package.json`, which is absent. -/
theorem C1_amended_end_to_end :
    (detect_language e2eRepo).main_language = "Python" ∧
    (find_entry_points e2eRepo).main_files = ["main.py"] ∧
    "flask" ∈ (detect_tech_stack e2eRepo).dependencies ∧
    "requests" ∈ (detect_tech_stack e2eRepo).dependencies ∧
    (detect_tech_stack e2eRepo).frameworks = [] ∧
    read_readme e2eRepo = "Hello" := by decide

/-- Claim C2 (confirmed): whatever the clone outcome, the working copy, and
whichever stage raises, the temporary directory no longer exists when
`analyze` exits — the `finally` block removes it on every path. -/
theorem C2_cleanup_always (url : String) (env : RunEnv) :
    (analyze url env).2 = false := rfl

/-- Claim C3 (counterexample): a string matching no repository-reference
pattern (`parse_url` rejects it) does not surface `InvalidReferenceError`
from `analyze`; the run fails in the clone stage and surfaces `FetchError`
(after cleanup). -/
theorem C3_counterexample :
    parse_url "this is not a repository reference" = none ∧
    analyze "this is not a repository reference" cloneFailEnv =
      (Except.error AnalyzerError.fetchError, false) ∧
    (analyze "this is not a repository reference" cloneFailEnv).1 ≠
      Except.error AnalyzerError.invalidReference := by decide

/-- Claim C3 (amended): `analyze` never consults the reference resolver
(`parse_url` is defined but never invoked), so no run surfaces
`InvalidReferenceError`; for an unparseable reference the clone is still
attempted, and when it fails the run aborts with `FetchError` after
cleanup. -/
theorem C3_amended_no_invalid_reference (url : String) (env : RunEnv) :
    (analyze url env).1 ≠ Except.error AnalyzerError.invalidReference ∧
    (env.cloneOk = false →
      analyze url env = (Except.error AnalyzerError.fetchError, false)) := by
  obtain ⟨co, repo, f1, f2, f3, f4, f5, f6⟩ := env
  constructor
  · cases co <;> cases f1 <;> cases f2 <;> cases f3 <;> cases f4 <;> cases f5 <;> cases f6 <;>
      simp [analyze, analyzeBody]
  · intro h
    simp only at h
    subst h
    rfl

/-- Witness for C3's amended theorem at a concrete failing clone. -/
theorem C3_witness :
    analyze "nonsense" cloneFailEnv = (Except.error AnalyzerError.fetchError, false) :=
  (C3_amended_no_invalid_reference "nonsense" cloneFailEnv).2 rfl

/-- Claim C5 (counterexample): a dependency declared both in `package.json`
and in `requirements.txt` appears twice in `tech_stack.dependencies` — the
two sources are not deduplicated against each other. -/
theorem C5_counterexample :
    (detect_tech_stack dupDepsRepo).dependencies = ["flask", "flask"] ∧
    ¬ (detect_tech_stack dupDepsRepo).dependencies.Nodup := by decide

/-- Claim C5 (amended): `tech_stack.dependencies` is the concatenation of a
`package.json` contribution and a `requirements.txt` contribution of at most
20 entries each; the sources are not deduplicated against each other, so a
name occurring in both manifests appears twice. -/
theorem C5_amended_per_source_cap (repo : Repo) :
    ∃ p r, (detect_tech_stack repo).dependencies = p ++ r ∧
      p.length ≤ 20 ∧ r.length ≤ 20 := by
  refine ⟨pkgDependencies repo, reqDependencies repo, rfl, ?_, ?_⟩
  · unfold pkgDependencies
    split
    · exact List.length_take_le _ _
    · simp
  · unfold reqDependencies
    split
    · exact List.length_take_le _ _
    · simp

/-- Claim C6 (counterexample): a file named exactly `config.json` IS
classified into the config bucket. -/
theorem C6_counterexample :
    "config.json" ∈ (find_entry_points e2eRepo).config_files := by decide

/-- Claim C6 (amended): `config.json` is classified into the config
entry-point bucket, because the keyword `config` is a substring of the
lower-cased filename. -/
theorem C6_amended_config_json :
    isConfigFile "config.json" = true ∧
    pyContains (pyToLower "config.json") "config" = true := by decide

/-- Claim C7 (confirmed): for every repository, each entry-point bucket is
deduplicated and respects its cap — 10 for main, 15 for config, 10 for
test. -/
theorem C7_buckets_nodup_and_capped (repo : Repo) :
    (find_entry_points repo).main_files.Nodup ∧
    (find_entry_points repo).main_files.length ≤ 10 ∧
    (find_entry_points repo).config_files.Nodup ∧
    (find_entry_points repo).config_files.length ≤ 15 ∧
    (find_entry_points repo).test_files.Nodup ∧
    (find_entry_points repo).test_files.length ≤ 10 := by
  refine ⟨?_, ?_, ?_, ?_, ?_, ?_⟩ <;>
    simp only [find_entry_points] <;>
    first
    | exact (pySetList_nodup _).sublist (List.take_sublist _ _)
    | exact List.length_take_le _ _

/-- Claim C8 (confirmed): a file is counted for at most one language — the
histogram total equals the number of classified files — and classification
takes the first `language_patterns` entry containing the extension, so every
`.h` file counts for C++ (declared before C), never for C. -/
theorem C8_first_table_entry_wins :
    (∀ f : String, pyToLower (pathSuffix f) = ".h" → classifyFile f = some "C++") ∧
    (∀ names : List String,
      countTotal (langCounts names) =
        names.countP (fun f => (classifyFile f).isSome)) := by
  constructor
  · intro f h
    simp only [classifyFile, h]
    decide
  · intro names
    have := langCounts_foldl_total names []
    simpa [langCounts, countTotal] using this

/-- Witness for C8 at a concrete `.h` file. -/
theorem C8_witness : classifyFile "demo.h" = some "C++" :=
  C8_first_table_entry_wins.1 "demo.h" (by decide)

/-- Claim C9 (counterexample): when the highest-priority description file
exists but its read fails, the extractor does not return the empty string —
it falls through to the next candidate and returns its content. -/
theorem C9_counterexample :
    read_readme unreadableReadmeRepo ≠ "" ∧
    read_readme unreadableReadmeRepo = "Fallback description" := by decide

/-- Claim C9 (amended): the extractor scans the canonical names in priority
order; a candidate that is absent or whose read raises is skipped silently
and the scan continues with the next candidate; the result is the first
successfully read content truncated to 2000 characters, and the empty string
exactly when no candidate is read successfully. -/
theorem C9_amended_readme :
    (∀ repo : Repo, (read_readme repo).length ≤ 2000) ∧
    (∀ repo : Repo,
      (∀ nm ∈ readme_files, rootText repo nm = none) → read_readme repo = "") ∧
    read_readme unreadableReadmeRepo = "Fallback description" := by
  refine ⟨?_, ?_, by decide⟩
  · intro repo
    unfold read_readme
    cases h : readme_files.findSome? (rootText repo) with
    | none => simp
    | some c =>
      show (c.data.take 2000).length ≤ 2000
      exact List.length_take_le _ _
  · intro repo h
    unfold read_readme
    rw [List.findSome?_eq_none_iff.mpr h]

/-- Witness for C9's amended theorem on the empty working copy. -/
theorem C9_witness : read_readme ([] : Repo) = "" :=
  C9_amended_readme.2.1 [] (fun _nm _h => rfl)

/-- Claim C10 (confirmed): the API scanner prunes only hidden directories,
so files under `node_modules`, `__pycache__`, `venv`, `dist` and `build`
whose names contain an API keyword all appear in `api_files` — while, on
the same working copy, the language classifier and entry-point locator
(which do prune those directories) see no files at all. -/
theorem C10_api_walk_descends_into_caches :
    analyze_apis cacheDirsRepo =
      ["node_modules/api.js", "__pycache__/routes.py", "venv/endpoints.py",
       "dist/controller.js", "build/api_client.py"] ∧
    (detect_language cacheDirsRepo).languages = [] ∧
    (detect_language cacheDirsRepo).main_language = "Unknown" ∧
    (find_entry_points cacheDirsRepo).main_files = [] := by decide

/-- Claim C4 (counterexample): `repo.replace('.git', '')` removes every
occurrence of the substring `.git`, not only a trailing suffix: for the name
`my.gitrepo` (which has no `.git` suffix to strip) the resolver returns
`myrepo` rather than the exact name. -/
theorem C4_counterexample :
    parse_url "https://github.com/team/my.gitrepo" = some ("team", "myrepo") ∧
    parse_url "https://github.com/team/my.gitrepo" ≠ some ("team", "my.gitrepo") := by
  decide

/-- Claim C4 (amended): for all supported reference forms (bare, `https://`
scheme, or `git@` with either separator), `parse_url` returns the owner
exactly, and the name with every occurrence of the substring `.git` removed
(so a trailing `.git` is stripped, but interior occurrences are removed
too); for any string not containing the repository-host marker it fails with
`InvalidReferenceError`. -/
theorem C4_amended_resolver :
    (∀ pre sep owner name : String,
      pre ∈ (["", "https://", "git@"] : List String) →
      sep ∈ ([":", "/"] : List String) →
      owner ≠ "" → '/' ∉ owner.data →
      name ≠ "" → '/' ∉ name.data → '\n' ∉ name.data →
      parse_url (pre ++ "github.com" ++ sep ++ owner ++ "/" ++ name) =
        some (owner, String.mk (replGit name.data))) ∧
    (∀ s : String, (¬ ∃ a b, s.data = a ++ githubHost ++ b) → parse_url s = none) := by
  constructor
  · intro pre sep owner name hpre hsep ho hos hn hns hnl
    have hod : owner.data ≠ [] := string_ne_empty_data owner ho
    have hnd : name.data ≠ [] := string_ne_empty_data name hn
    have hfin :
        ∀ (r : Option (List Char × List Char)) (fb : Option (String × String)),
          r = some (owner.data, group2 name.data) →
          (match r with
            | some (o, n) => some (String.mk o, String.mk (replGit n))
            | none => fb) =
            some (owner, String.mk (replGit name.data)) := by
      intro r fb hr
      subst hr
      show some (String.mk owner.data, String.mk (replGit (group2 name.data))) = _
      rw [group2_no_newline _ hnl, replGit_stripDotGit]
    simp only [List.mem_cons, List.not_mem_nil, or_false] at hpre hsep
    rcases hpre with hp | hp | hp <;> subst hp <;>
      rcases hsep with hq | hq | hq <;> try subst hq
    · -- pre = "", sep = ":"
      have hs : (("" : String) ++ "github.com" ++ ":" ++ owner ++ "/" ++ name).data =
          githubHost ++ (':' :: (owner.data ++ '/' :: name.data)) := by
        simp only [String.data_append, List.append_assoc]
        rfl
      unfold parse_url
      rw [hs]
      exact hfin _ _ (reSearch_host_valid ':' (Or.inl rfl) _ _ hod hos hnd hns)
    · -- pre = "", sep = "/"
      have hs : (("" : String) ++ "github.com" ++ "/" ++ owner ++ "/" ++ name).data =
          githubHost ++ ('/' :: (owner.data ++ '/' :: name.data)) := by
        simp only [String.data_append, List.append_assoc]
        rfl
      unfold parse_url
      rw [hs]
      exact hfin _ _ (reSearch_host_valid '/' (Or.inr rfl) _ _ hod hos hnd hns)
    · -- pre = "https://", sep = ":"
      have hs : (("https://" : String) ++ "github.com" ++ ":" ++ owner ++ "/" ++ name).data =
          'h' :: 't' :: 't' :: 'p' :: 's' :: ':' :: '/' :: '/' ::
            (githubHost ++ (':' :: (owner.data ++ '/' :: name.data))) := by
        simp only [String.data_append, List.append_assoc]
        rfl
      unfold parse_url
      rw [hs, reSearch_skip_https, reSearch_skip_https]
      exact hfin _ _ (reSearch_host_valid ':' (Or.inl rfl) _ _ hod hos hnd hns)
    · -- pre = "https://", sep = "/"
      have hs : (("https://" : String) ++ "github.com" ++ "/" ++ owner ++ "/" ++ name).data =
          'h' :: 't' :: 't' :: 'p' :: 's' :: ':' :: '/' :: '/' ::
            (githubHost ++ ('/' :: (owner.data ++ '/' :: name.data))) := by
        simp only [String.data_append, List.append_assoc]
        rfl
      unfold parse_url
      rw [hs, reSearch_skip_https, reSearch_skip_https]
      exact hfin _ _ (reSearch_host_valid '/' (Or.inr rfl) _ _ hod hos hnd hns)
    · -- pre = "git@", sep = ":"
      have hs : (("git@" : String) ++ "github.com" ++ ":" ++ owner ++ "/" ++ name).data =
          'g' :: 'i' :: 't' :: '@' ::
            (githubHost ++ (':' :: (owner.data ++ '/' :: name.data))) := by
        simp only [String.data_append, List.append_assoc]
        rfl
      unfold parse_url
      rw [hs, reSearch_skip_gitat, reSearch_skip_gitat]
      exact hfin _ _ (reSearch_host_valid ':' (Or.inl rfl) _ _ hod hos hnd hns)
    · -- pre = "git@", sep = "/"
      have hs : (("git@" : String) ++ "github.com" ++ "/" ++ owner ++ "/" ++ name).data =
          'g' :: 'i' :: 't' :: '@' ::
            (githubHost ++ ('/' :: (owner.data ++ '/' :: name.data))) := by
        simp only [String.data_append, List.append_assoc]
        rfl
      unfold parse_url
      rw [hs, reSearch_skip_gitat, reSearch_skip_gitat]
      exact hfin _ _ (reSearch_host_valid '/' (Or.inr rfl) _ _ hod hos hnd hns)
  · intro s hno
    have hnosearch : ∀ seps : List Char, reSearch seps s.data = none := by
      intro seps
      cases he : reSearch seps s.data with
      | none => rfl
      | some r =>
        obtain ⟨a, b, hab, hb⟩ := reSearch_some_decomp seps s.data r he
        obtain ⟨t, ht⟩ := matchAt_some_host seps b r hb
        exact absurd ⟨a, t, by rw [hab, ht, List.append_assoc]⟩ hno
    unfold parse_url
    rw [hnosearch [':', '/'], hnosearch ['/']]

/-- Witness for C4's amended theorem: a scp-style reference with a `.git`
suffix resolves to the stripped pair, and a host-free string is rejected. -/
theorem C4_witness :
    parse_url "git@github.com:owner/repo.git" = some ("owner", "repo") ∧
    parse_url "hi" = none := by
  constructor
  · have h := C4_amended_resolver.1 "git@" ":" "owner" "repo.git"
      (by decide) (by decide) (by decide) (by decide) (by decide) (by decide) (by decide)
    have h2 : parse_url "git@github.com:owner/repo.git" =
        some ("owner", String.mk (replGit "repo.git".data)) := h
    rw [h2]
    decide
  · refine C4_amended_resolver.2 "hi" ?_
    rintro ⟨a, b, hab⟩
    have hlen := congrArg List.length hab
    simp [githubHost] at hlen
    omega

end AnalyzeGithub
